import Mathlib

/-!
# Verification of the climate-data aggregation program (`src/climate.c`)

This file is a shallow embedding of `climate.c` together with proofs about it.

Modelling conventions:
* C `float` / `double` / `long double` quantities (humidity, cloud cover,
  temperatures and their running sums) are modelled as `ℚ`, i.e. as exact
  real-valued arithmetic.
* C `unsigned long` counters are modelled as `ℕ` or `ℤ`; no run of the program
  comes anywhere near 2^64, so modular wraparound is immaterial and is not
  modelled.
* C `long` / `long long` timestamps are modelled as `ℤ`.  C's `/` on integers
  truncates toward zero, which is `Int.tdiv`.
* The fixed array `struct climate_info *states[NUM_STATES]`, initially all
  `NULL`, is modelled as a `List climate_info` holding the non-NULL entries.
  In `analyze_file` a new accumulator is always created in the *first* NULL
  slot, so the non-NULL entries always form a contiguous prefix of the array
  and the list model is exact.
* `strtok`, `atoll`, `atoi`, `atof` are modelled on the `String` tokens of a
  line; `atof`/`atoi`/`atoll` return 0 when no conversion can be performed,
  as in C.  A `strtok` call that returns `NULL` because the line has run out
  of fields makes the C code pass `NULL` to `strcpy`/`atoll`/`atof`
  (undefined behavior); the parsing model returns `none` at exactly that
  point.
-/

/-- Mirrors `#define NUM_STATES 50` (climate.c:71). -/
def NUM_STATES : Nat := 50

/-- One observation line, after tokenisation and numeric conversion of the
seven fields the program reads (the geolocation and pressure tokens are
consumed and discarded, climate.c:190,195).  The millisecond timestamp and
the Kelvin temperature are kept raw here; `analyze_file` converts them at
ingest time (climate.c:187,196,206,213). -/
structure Record where
  code : String
  timestamp_ms : Int
  humidity : ℚ
  snow : Int
  cloud_cover : ℚ
  lightning : Int
  temp_kelvin : ℚ
deriving Repr, DecidableEq

/-- Mirrors `struct climate_info` (climate.c:78–90). -/
structure climate_info where
  code : String
  num_records : Nat
  sum_temperature : ℚ
  sum_humidity : ℚ
  snow_records : Int
  sum_cloud_cover : ℚ
  lightning_strikes : Int
  max_temperature : ℚ
  min_temperature : ℚ
  max_timestamp : Int
  min_timestamp : Int
deriving Repr, DecidableEq

/-- The temperature conversion applied at ingest:
`atof(strtok(NULL, delim)) * 1.8 - 459.67` (climate.c:196,213). -/
def kelvinToF (k : ℚ) : ℚ := k * 1.8 - 459.67

/-- Modelled from the spec: the spec states the conversion as the real-valued
formula `F = K * 1.8 − 459.67` (spec §3); used to compare the source's
expression against the spec's. -/
def kelvinToF_spec (k : ℚ) : ℚ := k * 1.8 - 459.67

/-- Creation of a fresh accumulator from the current line, i.e. the body of
the `*(states + i) == NULL` branch of `analyze_file` (climate.c:177–200). -/
def initInfo (r : Record) : climate_info :=
  { code := r.code
    num_records := 1
    sum_temperature := kelvinToF r.temp_kelvin
    sum_humidity := r.humidity
    snow_records := r.snow
    sum_cloud_cover := r.cloud_cover
    lightning_strikes := r.lightning
    max_temperature := kelvinToF r.temp_kelvin
    min_temperature := kelvinToF r.temp_kelvin
    max_timestamp := r.timestamp_ms.tdiv 1000
    min_timestamp := r.timestamp_ms.tdiv 1000 }

/-- Folding the current line into an existing accumulator, i.e. the body of
the `strcmp((*(states + i))->code, token) == 0` branch of `analyze_file`
(climate.c:204–226). -/
def foldInfo (ci : climate_info) (r : Record) : climate_info :=
  { code := ci.code
    num_records := ci.num_records + 1
    sum_temperature := ci.sum_temperature + kelvinToF r.temp_kelvin
    sum_humidity := ci.sum_humidity + r.humidity
    snow_records := ci.snow_records + r.snow
    sum_cloud_cover := ci.sum_cloud_cover + r.cloud_cover
    lightning_strikes := ci.lightning_strikes + r.lightning
    max_temperature :=
      if kelvinToF r.temp_kelvin > ci.max_temperature then kelvinToF r.temp_kelvin
      else ci.max_temperature
    max_timestamp :=
      if kelvinToF r.temp_kelvin > ci.max_temperature then r.timestamp_ms.tdiv 1000
      else ci.max_timestamp
    min_temperature :=
      if kelvinToF r.temp_kelvin < ci.min_temperature then kelvinToF r.temp_kelvin
      else ci.min_temperature
    min_timestamp :=
      if kelvinToF r.temp_kelvin < ci.min_temperature then r.timestamp_ms.tdiv 1000
      else ci.min_timestamp }

/-- The per-record slot scan of `analyze_file` (climate.c:176–227): walk the
slots in order; the first NULL slot creates a new accumulator; a slot whose
code matches folds the record in; if `cap` slots are scanned without finding
either, the loop just ends and the record is dropped.  `cap` is the number of
slots the loop may still visit (`NUM_STATES` at top level), and the list is
the contiguous prefix of non-NULL slots. -/
def ingest (cap : Nat) (states : List climate_info) (r : Record) : List climate_info :=
  match cap, states with
  | 0, s => s
  | _ + 1, [] => [initInfo r]
  | c + 1, ci :: rest =>
    if ci.code = r.code then foldInfo ci r :: rest
    else ci :: ingest c rest r

/-- The `while (fgets(...))` loop of `analyze_file` over the already-parsed
records of the input sources, threading the one process-wide store
(climate.c:163–229). -/
def ingestAll : List climate_info → List Record → List climate_info
  | s, [] => s
  | s, r :: rs => ingestAll (ingest NUM_STATES s r) rs

/-- The order in which `print_report` visits the accumulators: the first loop
of `print_report` prints `states[i]->code` for the non-NULL slots in index
order (climate.c:241–246), and the second loop prints the per-state blocks in
the same index order (climate.c:255–269). -/
def reportCodes (states : List climate_info) : List String :=
  states.map climate_info.code

/-- First-seen deduplication of a list of codes, starting from an already
accumulated front `acc`: the discovery order of the spec's glossary. -/
def dedupFrom : List String → List String → List String
  | acc, [] => acc
  | acc, c :: l => dedupFrom (if c ∈ acc then acc else acc ++ [c]) l

/-- Discovery order of a list of codes: each distinct code once, in the order
of its first occurrence. -/
def dedupFirst (l : List String) : List String := dedupFrom [] l

/-- Total number of records accumulated in the store. -/
def sumCounts (states : List climate_info) : Nat :=
  (states.map climate_info.num_records).sum

/-- Total record count attributed to one region code. -/
def countOf (states : List climate_info) (c : String) : Nat :=
  ((states.filter fun ci => ci.code = c).map climate_info.num_records).sum

/-- The spec's extremum invariant (§3): whenever an accumulator has at least
one record, its stored maximum temperature is ≥ its stored minimum. -/
def StoreInv (states : List climate_info) : Prop :=
  ∀ ci ∈ states, 1 ≤ ci.num_records → ci.min_temperature ≤ ci.max_temperature

instance : DecidablePred StoreInv := fun s =>
  inferInstanceAs (Decidable (∀ ci ∈ s, 1 ≤ ci.num_records → ci.min_temperature ≤ ci.max_temperature))

/-- `char delim[] = "\t\n"` (climate.c:155). -/
def isDelim (c : Char) : Bool := c = '\t' || c = '\n'

/-- Helper for `strtokAll`: scan the characters, cutting maximal nonempty
runs of non-delimiter characters, exactly as successive `strtok` calls do
(runs of delimiters are skipped, empty tokens are never produced). -/
def tokenize : List Char → List Char → List String
  | [], acc => if acc = [] then [] else [String.mk acc.reverse]
  | c :: cs, acc =>
    if isDelim c then
      if acc = [] then tokenize cs []
      else String.mk acc.reverse :: tokenize cs []
    else tokenize cs (c :: acc)

/-- The full sequence of tokens that the successive `strtok(line, "\t\n")` /
`strtok(NULL, "\t\n")` calls of `analyze_file` produce for one line; after
the list is exhausted, `strtok` returns `NULL`. -/
def strtokAll (line : String) : List String := tokenize line.toList []

/-- Numeric value of a digit string (most significant first). -/
def digitsVal (cs : List Char) : Nat :=
  cs.foldl (fun n c => 10 * n + (c.toNat - 48)) 0

/-- `isspace` characters relevant to this input. -/
def isSpaceCh (c : Char) : Bool := c = ' ' || c = '\t' || c = '\n' || c = '\r'

/-- Model of C `atoll`/`atol` on a token: skip leading whitespace, optional
sign, then the maximal digit prefix; yields 0 when no digits are present, as
in C. -/
def atoll (s : String) : Int :=
  match s.toList.dropWhile isSpaceCh with
  | '-' :: rest => -(digitsVal (rest.takeWhile Char.isDigit) : Int)
  | '+' :: rest => (digitsVal (rest.takeWhile Char.isDigit) : Int)
  | cs => (digitsVal (cs.takeWhile Char.isDigit) : Int)

/-- Model of C `atoi` on a token (same numeric prefix rule as `atoll`). -/
def atoi (s : String) : Int := atoll s

/-- Model of C `atof` on a token: skip leading whitespace, optional sign,
digits, optionally a point and fractional digits; yields 0.0 when no
conversion can be performed, as in C.  (The input format uses no exponents.) -/
def atof (s : String) : ℚ :=
  let cs := s.toList.dropWhile isSpaceCh
  let signed : ℚ × List Char :=
    match cs with
    | '-' :: rest => (-1, rest)
    | '+' :: rest => (1, rest)
    | _ => (1, cs)
  let ip := signed.2.takeWhile Char.isDigit
  let rest := signed.2.dropWhile Char.isDigit
  let fp : List Char :=
    match rest with
    | '.' :: r => r.takeWhile Char.isDigit
    | _ => []
  signed.1 * ((digitsVal ip : ℚ) + (digitsVal fp : ℚ) / (10 : ℚ) ^ fp.length)

/-- The tokenisation-and-conversion sequence `analyze_file` performs on one
line (climate.c:175–199 and 204–213): nine fields are pulled with `strtok`
(the 3rd, geolocation, and 8th, pressure, are pulled and discarded), any
further text on the line is never requested.  `none` models a line with
fewer than nine fields: there a `strtok` call returns `NULL` and the C code
passes that `NULL` straight to `strcpy`/`atoll`/`atof` — undefined behavior,
not a graceful skip. -/
def parseLineC (line : String) : Option Record :=
  match strtokAll line with
  | code :: ts :: _geo :: hum :: sn :: cl :: li :: _pres :: temp :: _ =>
    some { code := code
           timestamp_ms := atoll ts
           humidity := atof hum
           snow := atoi sn
           cloud_cover := atof cl
           lightning := atoi li
           temp_kelvin := atof temp }
  | _ => none

/-- Result of one whole run of `main` (climate.c:98–142), abstracting the
observable CLI surface: the exit status, whether the usage message was
printed, which unreadable paths were reported by
`printf("ERROR: %s does not exist\n", ...)`, whether `print_report` ran, and
the final store. -/
structure MainResult where
  exitCode : Nat
  usagePrinted : Bool
  diagnostics : List String
  reportPrinted : Bool
  states : List climate_info
deriving Repr

/-- The argument loop of `main` (climate.c:121–130): each source is either
unreadable (`none`: `fopen` failed, a diagnostic naming the path is printed
and the loop continues) or a readable file whose parsed records are folded
into the one process-wide store. -/
def processFiles :
    List (String × Option (List Record)) → List climate_info → List String →
    List climate_info × List String
  | [], s, d => (s, d)
  | f :: rest, s, d =>
    match f.2 with
    | none => processFiles rest s (d ++ [f.1])
    | some rs => processFiles rest (ingestAll s rs) d

/-- `main` (climate.c:98–142): zero data-file arguments print the usage text
and return `EXIT_FAILURE`; otherwise every source is processed in order,
`print_report` runs exactly when the first slot is non-NULL
(`if (*states != NULL)`, climate.c:137), and the run returns 0. -/
def main_model (files : List (String × Option (List Record))) : MainResult :=
  match files with
  | [] => { exitCode := 1, usagePrinted := true, diagnostics := [],
            reportPrinted := false, states := [] }
  | _ :: _ =>
    let sd := processFiles files [] []
    { exitCode := 0, usagePrinted := false, diagnostics := sd.2,
      reportPrinted := !sd.1.isEmpty, states := sd.1 }

/-- A concrete record used in witnesses. -/
def demoRecord (c : String) (ts : Int) : Record :=
  { code := c, timestamp_ms := ts, humidity := 50, snow := 0,
    cloud_cover := 40, lightning := 1, temp_kelvin := 280 }

/-- Fifty records with fifty pairwise distinct region codes. -/
def rs50 : List Record :=
  (List.range 50).map fun n => demoRecord (toString n) 0

/-- A record whose code matches none of the codes of `rs50`. -/
def recZZ : Record := demoRecord "ZZ" 7

/-- Fifty-one records with fifty-one pairwise distinct region codes: one more
than the store has slots. -/
def rs51 : List Record :=
  (List.range 51).map fun n => demoRecord (toString n) 0

/-- A concrete accumulator used in witnesses. -/
def demoInfo : climate_info :=
  { code := "TN", num_records := 3, sum_temperature := 100, sum_humidity := 150,
    snow_records := 1, sum_cloud_cover := 120, lightning_strikes := 2,
    max_temperature := 80, min_temperature := 10, max_timestamp := 5,
    min_timestamp := 2 }

/-- Records whose codes arrive in the order A, B, A, C. -/
def rsABAC : List Record :=
  [demoRecord "A" 1, demoRecord "B" 2, demoRecord "A" 3, demoRecord "C" 4]

/-- A concrete well-formed input line. -/
def demoLine : String := "TN\t1420000000000\tgeo\t50.0\t0\t40.0\t1\t100000.0\t283.15"

/-- The record `parseLineC` produces for `demoLine`. -/
def demoParsed : Record :=
  { code := "TN", timestamp_ms := atoll "1420000000000", humidity := atof "50.0",
    snow := atoi "0", cloud_cover := atof "40.0", lightning := atoi "1",
    temp_kelvin := atof "283.15" }

/-- A line with only two of the nine fields. -/
def malformedLine : String := "XX\t1420000000000"

/-- A nine-field line whose humidity field is not numeric. -/
def badNumericLine : String :=
  "XX\t1420000000000\tgeo\tabc\t0\t40.0\t0\t100000.0\t283.15"

/-- A concrete argument list: one unreadable path, one readable file with one
record. -/
def demoFiles : List (String × Option (List Record)) :=
  [("missing.tdv", none), ("data.tdv", some [demoRecord "TN" 1])]

theorem foldInfo_code (ci : climate_info) (r : Record) : (foldInfo ci r).code = ci.code := rfl

theorem initInfo_code (r : Record) : (initInfo r).code = r.code := rfl

theorem foldInfo_num (ci : climate_info) (r : Record) :
    (foldInfo ci r).num_records = ci.num_records + 1 := rfl

/-- If no slot matches and the scan budget is exhausted by the existing
entries, the record is dropped and the store is untouched. -/
theorem ingest_eq_of_not_mem_of_le (cap : Nat) (s : List climate_info) (r : Record)
    (h : r.code ∉ s.map climate_info.code) (hl : cap ≤ s.length) :
    ingest cap s r = s := by
  induction s generalizing cap with
  | nil =>
    have h0 : cap = 0 := Nat.le_zero.mp hl
    subst h0; rfl
  | cons ci rest ih =>
    match cap with
    | 0 => rfl
    | c + 1 =>
      have hne : ¬ ci.code = r.code := by
        intro hh
        exact h (by simp only [List.map_cons, List.mem_cons]; exact Or.inl hh.symm)
      have hm : r.code ∉ rest.map climate_info.code := by
        intro hm
        apply h
        simp only [List.map_cons, List.mem_cons]
        exact Or.inr hm
      simp only [ingest, if_neg hne]
      rw [ih c hm (Nat.le_of_succ_le_succ hl)]

/-- If no slot matches and a NULL slot is within the scan budget, a fresh
accumulator is created there (at the end of the non-NULL prefix). -/
theorem ingest_eq_of_not_mem_of_lt (cap : Nat) (s : List climate_info) (r : Record)
    (h : r.code ∉ s.map climate_info.code) (hl : s.length < cap) :
    ingest cap s r = s ++ [initInfo r] := by
  induction s generalizing cap with
  | nil =>
    match cap, hl with
    | c + 1, _ => rfl
  | cons ci rest ih =>
    match cap, hl with
    | c + 1, hl =>
      have hne : ¬ ci.code = r.code := by
        intro hh
        exact h (by simp only [List.map_cons, List.mem_cons]; exact Or.inl hh.symm)
      have hm : r.code ∉ rest.map climate_info.code := by
        intro hm
        apply h
        simp only [List.map_cons, List.mem_cons]
        exact Or.inr hm
      simp only [ingest, if_neg hne]
      rw [ih c hm (Nat.lt_of_succ_lt_succ hl)]
      rfl

/-- If some slot within the scan budget matches the record's code, the first
such slot is folded and every other slot is untouched. -/
theorem ingest_match_decomp (cap : Nat) (s : List climate_info) (r : Record)
    (h : r.code ∈ s.map climate_info.code) (hl : s.length ≤ cap) :
    ∃ s1 ci s2, s = s1 ++ ci :: s2 ∧ r.code ∉ s1.map climate_info.code ∧
      ci.code = r.code ∧ ingest cap s r = s1 ++ foldInfo ci r :: s2 := by
  induction s generalizing cap with
  | nil => simp at h
  | cons ci0 rest ih =>
    match cap with
    | 0 => simp only [List.length_cons] at hl; omega
    | c + 1 =>
      by_cases hc : ci0.code = r.code
      · exact ⟨[], ci0, rest, by simp, by simp, hc, by simp [ingest, if_pos hc]⟩
      · have hr : r.code ∈ rest.map climate_info.code := by
          rcases List.mem_map.mp h with ⟨x, hx, hxc⟩
          rcases List.mem_cons.mp hx with h1 | h2
          · exact absurd (h1 ▸ hxc) hc
          · exact List.mem_map.mpr ⟨x, h2, hxc⟩
        rcases ih c hr (Nat.le_of_succ_le_succ hl) with ⟨s1, ci, s2, hs, hns, hcc, hi⟩
        refine ⟨ci0 :: s1, ci, s2, by simp [hs], ?_, hcc, ?_⟩
        · simp only [List.map_cons, List.mem_cons]
          rintro (h1 | h2)
          · exact hc h1.symm
          · exact hns h2
        · rw [hs] at hi
          simp only [ingest, if_neg hc, hs, hi, List.cons_append]

/-- Effect of one ingest on the stored code list. -/
theorem ingest_codes (cap : Nat) (s : List climate_info) (r : Record)
    (hl : s.length ≤ cap) :
    (ingest cap s r).map climate_info.code =
      if r.code ∈ s.map climate_info.code then s.map climate_info.code
      else if s.length < cap then s.map climate_info.code ++ [r.code]
      else s.map climate_info.code := by
  by_cases hm : r.code ∈ s.map climate_info.code
  · rcases ingest_match_decomp cap s r hm hl with ⟨s1, ci, s2, hs, _, _, hi⟩
    rw [if_pos hm, hi, hs]
    simp [foldInfo_code]
  · rw [if_neg hm]
    by_cases hlt : s.length < cap
    · rw [if_pos hlt, ingest_eq_of_not_mem_of_lt cap s r hm hlt]
      simp [initInfo_code]
    · rw [if_neg hlt, ingest_eq_of_not_mem_of_le cap s r hm (by omega)]

theorem ingest_length_le (cap : Nat) (s : List climate_info) (r : Record)
    (hl : s.length ≤ cap) : (ingest cap s r).length ≤ cap := by
  have h := congrArg List.length (ingest_codes cap s r hl)
  simp only [List.length_map] at h
  rw [h]
  by_cases hm : r.code ∈ s.map climate_info.code
  · simpa [hm] using hl
  · by_cases hlt : s.length < cap
    · simp [hm, hlt]; omega
    · simpa [hm, hlt] using hl

theorem sumCounts_append (a b : List climate_info) :
    sumCounts (a ++ b) = sumCounts a + sumCounts b := by
  simp [sumCounts]

/-- Every routed record raises the total record count by exactly one. -/
theorem sumCounts_ingest (cap : Nat) (s : List climate_info) (r : Record)
    (hl : s.length ≤ cap)
    (hroute : r.code ∈ s.map climate_info.code ∨ s.length < cap) :
    sumCounts (ingest cap s r) = sumCounts s + 1 := by
  by_cases hm : r.code ∈ s.map climate_info.code
  · rcases ingest_match_decomp cap s r hm hl with ⟨s1, ci, s2, hs, _, _, hi⟩
    rw [hi, hs]
    simp only [sumCounts, List.map_append, List.map_cons, List.sum_append,
      List.sum_cons, foldInfo_num]
    omega
  · have hlt : s.length < cap := hroute.resolve_left hm
    rw [ingest_eq_of_not_mem_of_lt cap s r hm hlt]
    simp [sumCounts, initInfo]

theorem countOf_append (a b : List climate_info) (c : String) :
    countOf (a ++ b) c = countOf a c + countOf b c := by
  simp [countOf]

theorem countOf_cons (ci : climate_info) (s : List climate_info) (c : String) :
    countOf (ci :: s) c =
      (if ci.code = c then ci.num_records else 0) + countOf s c := by
  by_cases h : ci.code = c <;> simp [countOf, List.filter_cons, h]

/-- Every routed record raises the count of exactly its own region code. -/
theorem countOf_ingest (cap : Nat) (s : List climate_info) (r : Record)
    (hl : s.length ≤ cap)
    (hroute : r.code ∈ s.map climate_info.code ∨ s.length < cap) (c : String) :
    countOf (ingest cap s r) c = countOf s c + (if r.code = c then 1 else 0) := by
  by_cases hm : r.code ∈ s.map climate_info.code
  · rcases ingest_match_decomp cap s r hm hl with ⟨s1, ci, s2, hs, _, hcc, hi⟩
    rw [hi, hs, countOf_append, countOf_cons, countOf_append, countOf_cons,
      foldInfo_code, foldInfo_num]
    by_cases hc : r.code = c
    · rw [if_pos hc, if_pos (hcc.trans hc), if_pos (hcc.trans hc)]
      omega
    · rw [if_neg hc, if_neg (fun hh => hc (hcc ▸ hh)), if_neg (fun hh => hc (hcc ▸ hh))]
      omega
  · have hlt : s.length < cap := hroute.resolve_left hm
    rw [ingest_eq_of_not_mem_of_lt cap s r hm hlt, countOf_append, countOf_cons]
    simp only [countOf, List.filter_nil, List.map_nil, List.sum_nil, initInfo_code]
    by_cases hc : r.code = c <;> simp [hc, initInfo]

/-- Every entry of the store after an ingest is an untouched old entry, a
folded old entry, or the freshly created accumulator. -/
theorem mem_ingest (cap : Nat) (s : List climate_info) (r : Record) :
    ∀ x ∈ ingest cap s r,
      x ∈ s ∨ (∃ ci ∈ s, x = foldInfo ci r) ∨ x = initInfo r := by
  induction s generalizing cap with
  | nil =>
    match cap with
    | 0 => exact fun x hx => Or.inl hx
    | c + 1 => intro x hx; simp only [ingest, List.mem_singleton] at hx; exact Or.inr (Or.inr hx)
  | cons ci rest ih =>
    match cap with
    | 0 => exact fun x hx => Or.inl hx
    | c + 1 =>
      intro x hx
      simp only [ingest] at hx
      by_cases hc : ci.code = r.code
      · rw [if_pos hc] at hx
        rcases List.mem_cons.mp hx with h1 | h2
        · exact Or.inr (Or.inl ⟨ci, List.mem_cons_self ci rest, h1⟩)
        · exact Or.inl (List.mem_cons_of_mem _ h2)
      · rw [if_neg hc] at hx
        rcases List.mem_cons.mp hx with h1 | h2
        · exact Or.inl (h1 ▸ List.mem_cons_self ci rest)
        · rcases ih c x h2 with h | ⟨ci', hci', hx'⟩ | h
          · exact Or.inl (List.mem_cons_of_mem _ h)
          · exact Or.inr (Or.inl ⟨ci', List.mem_cons_of_mem _ hci', hx'⟩)
          · exact Or.inr (Or.inr h)

theorem ingest_ne_nil (cap : Nat) (s : List climate_info) (r : Record)
    (h : 0 < cap ∨ s ≠ []) : ingest cap s r ≠ [] := by
  match cap, s with
  | 0, s => exact h.resolve_left (by omega)
  | c + 1, [] => simp [ingest]
  | c + 1, ci :: rest =>
    simp only [ingest]
    split <;> simp

theorem ingestAll_ne_nil (rs : List Record) (s : List climate_info) (h : s ≠ []) :
    ingestAll s rs ≠ [] := by
  induction rs generalizing s with
  | nil => exact h
  | cons r rs ih => exact ih _ (ingest_ne_nil _ _ _ (Or.inr h))

theorem ingestAll_nil_iff (rs : List Record) : ingestAll [] rs = [] ↔ rs = [] := by
  constructor
  · intro h
    cases rs with
    | nil => rfl
    | cons r rs =>
      exact absurd h (ingestAll_ne_nil rs _ (ingest_ne_nil NUM_STATES [] r (Or.inl (by norm_num [NUM_STATES]))))
  · rintro rfl; rfl

/-- The store is one process-wide structure: processing sources one after the
other is processing the concatenation of their records. -/
theorem ingestAll_append (s : List climate_info) (rs1 rs2 : List Record) :
    ingestAll s (rs1 ++ rs2) = ingestAll (ingestAll s rs1) rs2 := by
  induction rs1 generalizing s with
  | nil => rfl
  | cons r rs ih => simp only [List.cons_append, ingestAll]; exact ih _

theorem dedupFrom_length_le (l acc : List String) :
    acc.length ≤ (dedupFrom acc l).length := by
  induction l generalizing acc with
  | nil => exact le_refl _
  | cons c l ih =>
    simp only [dedupFrom]
    refine le_trans ?_ (ih _)
    split
    · exact le_refl _
    · simp

theorem mem_dedupFrom (l acc : List String) (c : String) :
    c ∈ dedupFrom acc l ↔ c ∈ acc ∨ c ∈ l := by
  induction l generalizing acc with
  | nil => simp [dedupFrom]
  | cons d l ih =>
    simp only [dedupFrom, ih, List.mem_cons]
    by_cases hd : d ∈ acc
    · simp only [if_pos hd]
      constructor
      · rintro (h | h)
        · exact Or.inl h
        · exact Or.inr (Or.inr h)
      · rintro (h | h | h)
        · exact Or.inl h
        · exact Or.inl (h ▸ hd)
        · exact Or.inr h
    · simp only [if_neg hd, List.mem_append, List.mem_singleton]
      constructor
      · rintro ((h | h) | h)
        · exact Or.inl h
        · exact Or.inr (Or.inl h)
        · exact Or.inr (Or.inr h)
      · rintro (h | h | h)
        · exact Or.inl (Or.inl h)
        · exact Or.inl (Or.inr h)
        · exact Or.inr h

theorem nodup_dedupFrom (l acc : List String) (h : acc.Nodup) :
    (dedupFrom acc l).Nodup := by
  induction l generalizing acc with
  | nil => exact h
  | cons c l ih =>
    simp only [dedupFrom]
    apply ih
    split
    · exact h
    · next hc =>
      rw [List.nodup_append]
      refine ⟨h, List.nodup_singleton c, ?_⟩
      intro a ha hmem
      rw [List.mem_singleton] at hmem
      exact hc (hmem ▸ ha)

theorem dedupFrom_snoc (l acc : List String) (c : String) :
    dedupFrom acc (l ++ [c]) =
      if c ∈ dedupFrom acc l then dedupFrom acc l else dedupFrom acc l ++ [c] := by
  induction l generalizing acc with
  | nil => simp [dedupFrom]
  | cons d l ih =>
    simp only [List.cons_append, dedupFrom]
    exact ih _

/-- Store-code invariant of a whole run: after ingesting any sequence of
records into a store whose codes are the first-seen order of some previously
seen codes (truncated at `NUM_STATES` distinct codes), the store codes are
the first-seen order of all codes seen, truncated the same way. -/
theorem ingestAll_codes_inv (rs : List Record) (s : List climate_info) (pre : List String)
    (hs : s.map climate_info.code = (dedupFirst pre).take NUM_STATES) :
    (ingestAll s rs).map climate_info.code =
      (dedupFirst (pre ++ rs.map Record.code)).take NUM_STATES := by
  induction rs generalizing s pre with
  | nil => simpa using hs
  | cons r rs ih =>
    have hlen0 := congrArg List.length hs
    rw [List.length_map, List.length_take] at hlen0
    have hlen : s.length ≤ NUM_STATES := by omega
    have hsnoc : dedupFirst (pre ++ [r.code]) =
        if r.code ∈ dedupFirst pre then dedupFirst pre else dedupFirst pre ++ [r.code] := by
      simpa [dedupFirst] using dedupFrom_snoc pre [] r.code
    have hstep : (ingest NUM_STATES s r).map climate_info.code
        = (dedupFirst (pre ++ [r.code])).take NUM_STATES := by
      rw [ingest_codes NUM_STATES s r hlen, hsnoc]
      by_cases hm : r.code ∈ s.map climate_info.code
      · have hd : r.code ∈ dedupFirst pre := List.take_subset _ _ (hs ▸ hm)
        rw [if_pos hm, if_pos hd, hs]
      · rw [if_neg hm]
        by_cases hroom : s.length < NUM_STATES
        · have hdlen : (dedupFirst pre).length < NUM_STATES := by omega
          have htake : (dedupFirst pre).take NUM_STATES = dedupFirst pre :=
            List.take_of_length_le (by omega)
          have hnd : r.code ∉ dedupFirst pre := by
            intro hin
            exact hm (by rw [hs, htake]; exact hin)
          rw [if_pos hroom, if_neg hnd, hs, htake]
          exact (List.take_of_length_le (by simp only [List.length_append, List.length_singleton]; omega)).symm
        · have hdlen : NUM_STATES ≤ (dedupFirst pre).length := by omega
          rw [if_neg hroom]
          by_cases hd : r.code ∈ dedupFirst pre
          · rw [if_pos hd, hs]
          · rw [if_neg hd, List.take_append_of_le_length hdlen, hs]
    have hrec := ih (ingest NUM_STATES s r) (pre ++ [r.code]) hstep
    simp only [ingestAll, List.map_cons]
    rw [hrec, List.append_assoc, List.singleton_append]

/-- The report code list of a fresh run is the discovery order of the codes
of the ingested records, truncated to the first `NUM_STATES` distinct codes. -/
theorem ingestAll_codes (rs : List Record) :
    (ingestAll [] rs).map climate_info.code =
      (dedupFirst (rs.map Record.code)).take NUM_STATES := by
  simpa using ingestAll_codes_inv rs [] [] (by simp [dedupFirst, dedupFrom])

/-- When at most `NUM_STATES` distinct region codes remain in sight, every
record of the run is routed and each raises the total record count by one. -/
theorem sumCounts_ingestAll (rs : List Record) (s : List climate_info)
    (hl : s.length ≤ NUM_STATES)
    (hd : (dedupFrom (s.map climate_info.code) (rs.map Record.code)).length ≤ NUM_STATES) :
    sumCounts (ingestAll s rs) = sumCounts s + rs.length := by
  induction rs generalizing s with
  | nil => simp [ingestAll]
  | cons r rs ih =>
    rw [List.map_cons] at hd
    by_cases hm : r.code ∈ s.map climate_info.code
    · rw [show dedupFrom (s.map climate_info.code) (r.code :: rs.map Record.code)
          = dedupFrom (s.map climate_info.code) (rs.map Record.code) from by
        simp [dedupFrom, hm]] at hd
      have hd' : (dedupFrom ((ingest NUM_STATES s r).map climate_info.code)
          (rs.map Record.code)).length ≤ NUM_STATES := by
        rw [ingest_codes NUM_STATES s r hl, if_pos hm]
        exact hd
      simp only [ingestAll, List.length_cons]
      rw [ih _ (ingest_length_le _ _ _ hl) hd',
        sumCounts_ingest NUM_STATES s r hl (Or.inl hm)]
      omega
    · rw [show dedupFrom (s.map climate_info.code) (r.code :: rs.map Record.code)
          = dedupFrom (s.map climate_info.code ++ [r.code]) (rs.map Record.code) from by
        simp [dedupFrom, hm]] at hd
      have hge := dedupFrom_length_le (rs.map Record.code) (s.map climate_info.code ++ [r.code])
      have hroom : s.length < NUM_STATES := by
        have h1 : (s.map climate_info.code ++ [r.code]).length ≤ NUM_STATES := le_trans hge hd
        simp only [List.length_append, List.length_singleton, List.length_map] at h1
        omega
      have hd' : (dedupFrom ((ingest NUM_STATES s r).map climate_info.code)
          (rs.map Record.code)).length ≤ NUM_STATES := by
        rw [ingest_codes NUM_STATES s r hl, if_neg hm, if_pos hroom]
        exact hd
      simp only [ingestAll, List.length_cons]
      rw [ih _ (ingest_length_le _ _ _ hl) hd',
        sumCounts_ingest NUM_STATES s r hl (Or.inr hroom)]
      omega

/-- When at most `NUM_STATES` distinct region codes remain in sight, the count
attributed to each code grows by exactly the number of records with that code. -/
theorem countOf_ingestAll (rs : List Record) (s : List climate_info)
    (hl : s.length ≤ NUM_STATES)
    (hd : (dedupFrom (s.map climate_info.code) (rs.map Record.code)).length ≤ NUM_STATES)
    (c : String) :
    countOf (ingestAll s rs) c =
      countOf s c + (rs.filter fun r => r.code = c).length := by
  induction rs generalizing s with
  | nil => simp [ingestAll]
  | cons r rs ih =>
    rw [List.map_cons] at hd
    have hfilter : ((r :: rs).filter fun r => r.code = c).length
        = ((rs.filter fun r => r.code = c).length + if r.code = c then 1 else 0) := by
      by_cases hc : r.code = c <;> simp [List.filter_cons, hc]
    by_cases hm : r.code ∈ s.map climate_info.code
    · rw [show dedupFrom (s.map climate_info.code) (r.code :: rs.map Record.code)
          = dedupFrom (s.map climate_info.code) (rs.map Record.code) from by
        simp [dedupFrom, hm]] at hd
      have hd' : (dedupFrom ((ingest NUM_STATES s r).map climate_info.code)
          (rs.map Record.code)).length ≤ NUM_STATES := by
        rw [ingest_codes NUM_STATES s r hl, if_pos hm]
        exact hd
      simp only [ingestAll]
      rw [ih _ (ingest_length_le _ _ _ hl) hd',
        countOf_ingest NUM_STATES s r hl (Or.inl hm) c, hfilter]
      omega
    · rw [show dedupFrom (s.map climate_info.code) (r.code :: rs.map Record.code)
          = dedupFrom (s.map climate_info.code ++ [r.code]) (rs.map Record.code) from by
        simp [dedupFrom, hm]] at hd
      have hge := dedupFrom_length_le (rs.map Record.code) (s.map climate_info.code ++ [r.code])
      have hroom : s.length < NUM_STATES := by
        have h1 : (s.map climate_info.code ++ [r.code]).length ≤ NUM_STATES := le_trans hge hd
        simp only [List.length_append, List.length_singleton, List.length_map] at h1
        omega
      have hd' : (dedupFrom ((ingest NUM_STATES s r).map climate_info.code)
          (rs.map Record.code)).length ≤ NUM_STATES := by
        rw [ingest_codes NUM_STATES s r hl, if_neg hm, if_pos hroom]
        exact hd
      simp only [ingestAll]
      rw [ih _ (ingest_length_le _ _ _ hl) hd',
        countOf_ingest NUM_STATES s r hl (Or.inr hroom) c, hfilter]
      omega

theorem countOf_eq_zero (s : List climate_info) (c : String)
    (h : c ∉ s.map climate_info.code) : countOf s c = 0 := by
  induction s with
  | nil => rfl
  | cons ci rest ih =>
    rw [countOf_cons, ih (fun hm => h (by simp only [List.map_cons, List.mem_cons]; exact Or.inr hm))]
    rw [if_neg (fun hh => h (by simp only [List.map_cons, List.mem_cons]; exact Or.inl hh.symm))]

/-- In a store whose codes are pairwise distinct, the count attributed to an
entry's code is that entry's record count. -/
theorem countOf_eq_of_nodup (s : List climate_info)
    (h : (s.map climate_info.code).Nodup) (ci : climate_info) (hci : ci ∈ s) :
    countOf s ci.code = ci.num_records := by
  induction s with
  | nil => cases hci
  | cons hd tl ih =>
    rw [List.map_cons, List.nodup_cons] at h
    rcases List.mem_cons.mp hci with h1 | h2
    · subst h1
      rw [countOf_cons, if_pos rfl, countOf_eq_zero tl ci.code h.1]
      omega
    · have hne : hd.code ≠ ci.code := by
        intro hh
        exact h.1 (hh ▸ List.mem_map.mpr ⟨ci, h2, rfl⟩)
      rw [countOf_cons, if_neg hne, ih h.2 h2]
      omega

theorem foldInfo_min_le_max (ci : climate_info) (r : Record) :
    (foldInfo ci r).min_temperature ≤ (foldInfo ci r).max_temperature := by
  simp only [foldInfo]
  by_cases h1 : kelvinToF r.temp_kelvin > ci.max_temperature <;>
    by_cases h2 : kelvinToF r.temp_kelvin < ci.min_temperature <;>
    simp only [if_pos, if_neg, h1, h2, if_true, if_false] <;>
    push_neg at * <;> linarith

/-- One ingest preserves the extremum invariant. -/
theorem StoreInv_ingest (cap : Nat) (s : List climate_info) (r : Record)
    (h : StoreInv s) : StoreInv (ingest cap s r) := by
  intro x hx hn
  rcases mem_ingest cap s r x hx with hxs | ⟨ci, _, rfl⟩ | rfl
  · exact h x hxs hn
  · exact foldInfo_min_le_max ci r
  · simp [initInfo]

theorem StoreInv_ingestAll (rs : List Record) (s : List climate_info)
    (h : StoreInv s) : StoreInv (ingestAll s rs) := by
  induction rs generalizing s with
  | nil => exact h
  | cons r rs ih => exact ih _ (StoreInv_ingest NUM_STATES s r h)

/-- `ingest` applies the fold exactly at the first matching slot. -/
theorem ingest_fold_at (cap : Nat) (s1 : List climate_info) (ci : climate_info)
    (s2 : List climate_info) (r : Record)
    (h1 : r.code ∉ s1.map climate_info.code) (hc : ci.code = r.code)
    (hl : s1.length < cap) :
    ingest cap (s1 ++ ci :: s2) r = s1 ++ foldInfo ci r :: s2 := by
  induction s1 generalizing cap with
  | nil =>
    match cap, hl with
    | c + 1, _ => simp [ingest, hc]
  | cons x s1 ih =>
    match cap, hl with
    | c + 1, hl =>
      have hx : ¬ x.code = r.code := fun hh =>
        h1 (by simp only [List.map_cons, List.mem_cons]; exact Or.inl hh.symm)
      have h1' : r.code ∉ s1.map climate_info.code := fun hm =>
        h1 (by simp only [List.map_cons, List.mem_cons]; exact Or.inr hm)
      simp only [List.cons_append, ingest, if_neg hx]
      exact congrArg (List.cons x) (ih c h1' (Nat.lt_of_succ_lt_succ hl))

/-- The file loop of `main`: the final store is the fold of the records of
the readable sources in order, and the diagnostics name exactly the
unreadable paths in order. -/
theorem processFiles_eq (files : List (String × Option (List Record)))
    (s : List climate_info) (d : List String) :
    processFiles files s d =
      (ingestAll s ((files.map fun f => f.2.getD []).flatten),
       d ++ (files.filter fun f => f.2.isNone).map Prod.fst) := by
  induction files generalizing s d with
  | nil =>
    simp only [List.map_nil, List.flatten_nil, List.filter_nil, List.append_nil]
    rfl
  | cons f rest ih =>
    obtain ⟨p, o⟩ := f
    cases o with
    | none =>
      show processFiles rest s (d ++ [p]) = _
      rw [ih]
      refine congrArg₂ Prod.mk (by simp) ?_
      rw [List.filter_cons_of_pos (by simp), List.map_cons]
      simp
    | some rs =>
      show processFiles rest (ingestAll s rs) d = _
      rw [ih]
      simp [ingestAll_append]

/-- The source's conversion expression coincides with the spec's stated
formula `F = K * 1.8 − 459.67`. -/
theorem kelvinToF_matches_spec (k : ℚ) : kelvinToF k = kelvinToF_spec k := rfl

/-- **C1**: folding a record into an existing accumulator for its region code
(the `strcmp == 0` branch of `analyze_file`) increments `num_records` by 1,
adds the record's humidity, cloud cover and converted temperature to the
running sums, adds 1 to the snow and lightning counters exactly when the
respective 0/1 flag is set, and replaces `max_temperature`
(resp. `min_temperature`) together with its timestamp exactly when the new
converted temperature is strictly greater (resp. strictly smaller) than the
stored one — on ties the earlier-seen extremum and its timestamp are kept.
The first conjunct states that `ingest` applies exactly this fold to the
first accumulator whose code matches. -/
theorem C1_fold_updates (ci : climate_info) (r : Record)
    (hsn : r.snow = 0 ∨ r.snow = 1) (hli : r.lightning = 0 ∨ r.lightning = 1) :
    (∀ s1 s2 : List climate_info, r.code ∉ s1.map climate_info.code →
      ci.code = r.code → s1.length < NUM_STATES →
      ingest NUM_STATES (s1 ++ ci :: s2) r = s1 ++ foldInfo ci r :: s2)
    ∧ (foldInfo ci r).num_records = ci.num_records + 1
    ∧ (foldInfo ci r).sum_humidity = ci.sum_humidity + r.humidity
    ∧ (foldInfo ci r).sum_cloud_cover = ci.sum_cloud_cover + r.cloud_cover
    ∧ (foldInfo ci r).sum_temperature = ci.sum_temperature + kelvinToF r.temp_kelvin
    ∧ (foldInfo ci r).snow_records =
        (if r.snow = 1 then ci.snow_records + 1 else ci.snow_records)
    ∧ (foldInfo ci r).lightning_strikes =
        (if r.lightning = 1 then ci.lightning_strikes + 1 else ci.lightning_strikes)
    ∧ (kelvinToF r.temp_kelvin > ci.max_temperature →
        (foldInfo ci r).max_temperature = kelvinToF r.temp_kelvin
        ∧ (foldInfo ci r).max_timestamp = r.timestamp_ms.tdiv 1000)
    ∧ (¬ kelvinToF r.temp_kelvin > ci.max_temperature →
        (foldInfo ci r).max_temperature = ci.max_temperature
        ∧ (foldInfo ci r).max_timestamp = ci.max_timestamp)
    ∧ (kelvinToF r.temp_kelvin < ci.min_temperature →
        (foldInfo ci r).min_temperature = kelvinToF r.temp_kelvin
        ∧ (foldInfo ci r).min_timestamp = r.timestamp_ms.tdiv 1000)
    ∧ (¬ kelvinToF r.temp_kelvin < ci.min_temperature →
        (foldInfo ci r).min_temperature = ci.min_temperature
        ∧ (foldInfo ci r).min_timestamp = ci.min_timestamp) := by
  refine ⟨fun s1 s2 h1 hc hl => ingest_fold_at NUM_STATES s1 ci s2 r h1 hc hl,
    rfl, rfl, rfl, rfl, ?_, ?_, ?_, ?_, ?_, ?_⟩
  · rcases hsn with h | h <;> simp [foldInfo, h]
  · rcases hli with h | h <;> simp [foldInfo, h]
  · intro h; exact ⟨by simp [foldInfo, if_pos h], by simp [foldInfo, if_pos h]⟩
  · intro h; exact ⟨by simp [foldInfo, if_neg h], by simp [foldInfo, if_neg h]⟩
  · intro h; exact ⟨by simp [foldInfo, if_pos h], by simp [foldInfo, if_pos h]⟩
  · intro h; exact ⟨by simp [foldInfo, if_neg h], by simp [foldInfo, if_neg h]⟩

/-- Witness for C1 at a concrete accumulator and record. -/
theorem C1_fold_updates_witness :
    ((demoRecord "TN" 9).snow = 0 ∨ (demoRecord "TN" 9).snow = 1)
    ∧ ((demoRecord "TN" 9).lightning = 0 ∨ (demoRecord "TN" 9).lightning = 1)
    ∧ (foldInfo demoInfo (demoRecord "TN" 9)).num_records = demoInfo.num_records + 1
    ∧ (foldInfo demoInfo (demoRecord "TN" 9)).sum_humidity
        = demoInfo.sum_humidity + (demoRecord "TN" 9).humidity :=
  ⟨by decide, by decide,
    (C1_fold_updates demoInfo (demoRecord "TN" 9) (by decide) (by decide)).2.1,
    (C1_fold_updates demoInfo (demoRecord "TN" 9) (by decide) (by decide)).2.2.1⟩

/-- **C2 (counterexample)**: with all fifty slots occupied by other codes, a
record whose code has no accumulator does NOT get one created: the store is
returned unchanged and its code never appears.  The full store is reachable
from a fresh run (it is `ingestAll [] rs50`). -/
theorem C2_creation_counterexample :
    recZZ.code ∉ reportCodes (ingestAll [] rs50)
    ∧ ingest NUM_STATES (ingestAll [] rs50) recZZ = ingestAll [] rs50 := by
  constructor
  · decide
  · exact ingest_eq_of_not_mem_of_le NUM_STATES (ingestAll [] rs50) recZZ
      (by decide) (by decide)

/-- **C2 (amended)**: for every record whose region code has no accumulator
yet, *provided the store holds fewer than `NUM_STATES` accumulators*,
`ingest` appends a new accumulator initialized from that record:
`num_records = 1`, each running sum equal to the record's respective field
value, both extrema equal to the converted temperature and both extremum
timestamps equal to the record's observation time. -/
theorem C2_ingest_creates (s : List climate_info) (r : Record)
    (h : ∀ ci ∈ s, ci.code ≠ r.code) (hl : s.length < NUM_STATES) :
    ingest NUM_STATES s r = s ++ [initInfo r]
    ∧ (initInfo r).code = r.code
    ∧ (initInfo r).num_records = 1
    ∧ (initInfo r).sum_humidity = r.humidity
    ∧ (initInfo r).sum_cloud_cover = r.cloud_cover
    ∧ (initInfo r).sum_temperature = kelvinToF r.temp_kelvin
    ∧ (initInfo r).snow_records = r.snow
    ∧ (initInfo r).lightning_strikes = r.lightning
    ∧ (initInfo r).max_temperature = kelvinToF r.temp_kelvin
    ∧ (initInfo r).min_temperature = kelvinToF r.temp_kelvin
    ∧ (initInfo r).max_timestamp = r.timestamp_ms.tdiv 1000
    ∧ (initInfo r).min_timestamp = r.timestamp_ms.tdiv 1000 := by
  refine ⟨?_, rfl, rfl, rfl, rfl, rfl, rfl, rfl, rfl, rfl, rfl, rfl⟩
  refine ingest_eq_of_not_mem_of_lt NUM_STATES s r ?_ hl
  intro hm
  rcases List.mem_map.mp hm with ⟨ci, hci, hc⟩
  exact h ci hci hc

/-- Witness for the amended C2 at an empty store. -/
theorem C2_ingest_creates_witness :
    (∀ ci ∈ ([] : List climate_info), ci.code ≠ (demoRecord "AA" 5).code)
    ∧ ([] : List climate_info).length < NUM_STATES
    ∧ ingest NUM_STATES [] (demoRecord "AA" 5) = [] ++ [initInfo (demoRecord "AA" 5)]
    ∧ (initInfo (demoRecord "AA" 5)).num_records = 1 :=
  ⟨by decide, by decide,
    (C2_ingest_creates [] (demoRecord "AA" 5) (by decide) (by decide)).1,
    (C2_ingest_creates [] (demoRecord "AA" 5) (by decide) (by decide)).2.2.1⟩

/-- **C3**: discovery order is preserved.  The report visits the accumulators
in the order their codes were first encountered across all ingested records
(truncated to the first `NUM_STATES` distinct codes, the only ones that get
an accumulator); the store is one process-wide structure, so processing a
second source continues from the store left by the first; and ingesting
codes in order A, B, A, C yields report order A, B, C. -/
theorem C3_discovery_order (rs rs1 rs2 : List Record) (s : List climate_info) :
    reportCodes (ingestAll [] rs) = (dedupFirst (rs.map Record.code)).take NUM_STATES
    ∧ ingestAll s (rs1 ++ rs2) = ingestAll (ingestAll s rs1) rs2
    ∧ reportCodes (ingestAll [] rsABAC) = ["A", "B", "C"] :=
  ⟨ingestAll_codes rs, ingestAll_append s rs1 rs2, by decide⟩

/-- **C4**: whenever an accumulator holds at least one record, its stored
maximum temperature is ≥ its stored minimum; the invariant is preserved by
every single ingest and therefore holds in every store reachable by a run. -/
theorem C4_max_ge_min (s : List climate_info) (r : Record) (rs : List Record) :
    (StoreInv s → StoreInv (ingest NUM_STATES s r))
    ∧ StoreInv (ingestAll [] rs) :=
  ⟨StoreInv_ingest NUM_STATES s r,
    StoreInv_ingestAll rs [] (fun ci h => absurd h (List.not_mem_nil ci))⟩

/-- Witness for C4 at a concrete store and record. -/
theorem C4_max_ge_min_witness :
    StoreInv [demoInfo]
    ∧ StoreInv (ingest NUM_STATES [demoInfo] (demoRecord "TN" 9)) :=
  ⟨by decide, (C4_max_ge_min [demoInfo] (demoRecord "TN" 9) []).1 (by decide)⟩

/-- **C5 (counterexample)**: feeding fifty-one valid records with fifty-one
distinct region codes to a fresh store leaves total stored record count 50,
not 51 — the record for the fifty-first code is dropped, so the region count
list does not sum to the number of records fed. -/
theorem C5_sum_counterexample :
    rs51.length = 51 ∧ sumCounts (ingestAll [] rs51) = 50 := by
  constructor
  · decide
  · decide

/-- **C5 (amended)**: for any sequence of valid records fed to a fresh store
*in which at most `NUM_STATES` distinct region codes occur* (so that no
record is dropped by the capacity bound), the stored record counts sum to
the total number of ingested records, and each accumulator's record count
equals the number of records routed to it (those bearing its code). -/
theorem C5_record_count_sum (rs : List Record)
    (h : (dedupFirst (rs.map Record.code)).length ≤ NUM_STATES) :
    sumCounts (ingestAll [] rs) = rs.length
    ∧ ∀ ci ∈ ingestAll [] rs,
        ci.num_records = (rs.filter fun r => r.code = ci.code).length := by
  have hnil : (([] : List climate_info).map climate_info.code) = [] := rfl
  constructor
  · have hsum := sumCounts_ingestAll rs []
      (by simp [NUM_STATES]) (by rw [hnil]; exact h)
    simpa [sumCounts] using hsum
  · intro ci hci
    have hnodup : ((ingestAll [] rs).map climate_info.code).Nodup := by
      rw [ingestAll_codes rs]
      exact List.Nodup.sublist (List.take_sublist _ _)
        (nodup_dedupFrom _ [] List.nodup_nil)
    have h1 := countOf_eq_of_nodup _ hnodup ci hci
    have h2 := countOf_ingestAll rs []
      (by simp [NUM_STATES]) (by rw [hnil]; exact h) ci.code
    rw [h1] at h2
    simpa [countOf] using h2

/-- Witness for the amended C5 on the A, B, A, C run. -/
theorem C5_record_count_sum_witness :
    (dedupFirst (rsABAC.map Record.code)).length ≤ NUM_STATES
    ∧ sumCounts (ingestAll [] rsABAC) = rsABAC.length :=
  ⟨by decide, (C5_record_count_sum rsABAC (by decide)).1⟩

/-- **C6**: for every parsed line, the raw millisecond timestamp is the
`atoll` value of the line's second field, and every observation time the
program stores (the extremum timestamps, on creation and on update) is that
value integer-divided by 1000 — `Int.tdiv`, C's truncating division —
converting milliseconds to seconds. -/
theorem C6_timestamp_seconds (line : String) (r : Record) (ci : climate_info)
    (h : parseLineC line = some r) :
    r.timestamp_ms = atoll (((strtokAll line)[1]?).getD "")
    ∧ (initInfo r).max_timestamp = r.timestamp_ms.tdiv 1000
    ∧ (initInfo r).min_timestamp = r.timestamp_ms.tdiv 1000
    ∧ (kelvinToF r.temp_kelvin > ci.max_temperature →
        (foldInfo ci r).max_timestamp = r.timestamp_ms.tdiv 1000)
    ∧ (kelvinToF r.temp_kelvin < ci.min_temperature →
        (foldInfo ci r).min_timestamp = r.timestamp_ms.tdiv 1000) := by
  refine ⟨?_, rfl, rfl, fun hgt => by simp [foldInfo, if_pos hgt],
    fun hlt => by simp [foldInfo, if_pos hlt]⟩
  unfold parseLineC at h
  split at h
  · next code ts geo hum sn cl li pres temp tail heq =>
    injection h with h
    subst h
    rw [heq]
    rfl
  · exact absurd h (by simp)

/-- Witness for C6 on a concrete line. -/
theorem C6_timestamp_seconds_witness :
    parseLineC demoLine = some demoParsed
    ∧ demoParsed.timestamp_ms = atoll (((strtokAll demoLine)[1]?).getD "")
    ∧ (initInfo demoParsed).max_timestamp = demoParsed.timestamp_ms.tdiv 1000 :=
  ⟨rfl, (C6_timestamp_seconds demoLine demoParsed demoInfo rfl).1,
    (C6_timestamp_seconds demoLine demoParsed demoInfo rfl).2.1⟩

/-- **C8**: zero data-file arguments print the usage message and exit with a
failure status; otherwise the run exits 0, prints no usage, prints one
diagnostic naming each unreadable path (in order) while skipping it, folds
exactly the readable sources' records into the store, and prints the report
iff at least one record was ingested (i.e. some readable source held a
record). -/
theorem C8_cli_surface (files : List (String × Option (List Record))) :
    (files = [] →
      (main_model files).exitCode = 1
      ∧ (main_model files).usagePrinted = true
      ∧ (main_model files).reportPrinted = false)
    ∧ (files ≠ [] →
      (main_model files).exitCode = 0
      ∧ (main_model files).usagePrinted = false
      ∧ (main_model files).diagnostics
          = (files.filter fun f => f.2.isNone).map Prod.fst
      ∧ (main_model files).states
          = ingestAll [] ((files.map fun f => f.2.getD []).flatten)
      ∧ ((main_model files).reportPrinted = true ↔
          ∃ f ∈ files, ∃ rs, f.2 = some rs ∧ rs ≠ [])) := by
  constructor
  · rintro rfl
    exact ⟨rfl, rfl, rfl⟩
  · intro hne
    match files, hne with
    | f :: rest, _ =>
      have hmm : main_model (f :: rest) =
          { exitCode := 0, usagePrinted := false,
            diagnostics := (processFiles (f :: rest) [] []).2,
            reportPrinted := !(processFiles (f :: rest) [] []).1.isEmpty,
            states := (processFiles (f :: rest) [] []).1 } := rfl
      rw [hmm, processFiles_eq (f :: rest) [] []]
      refine ⟨rfl, rfl, by simp, rfl, ?_⟩
      constructor
      · intro h
        have hns : ingestAll [] ((List.map (fun f => f.2.getD []) (f :: rest)).flatten) ≠ [] := by
          intro hnil
          rw [hnil] at h
          simp at h
        have hJ : (List.map (fun f => f.2.getD []) (f :: rest)).flatten ≠ [] := by
          intro hJ
          exact hns (by rw [hJ]; rfl)
        obtain ⟨l, hl, hlne⟩ :
            ∃ l ∈ (f :: rest).map (fun f => f.2.getD []), l ≠ [] := by
          by_contra hall
          push_neg at hall
          exact hJ (List.flatten_eq_nil_iff.mpr hall)
        rcases List.mem_map.mp hl with ⟨f', hf', rfl⟩
        refine ⟨f', hf', ?_⟩
        match ho : f'.2, hlne with
        | some rs, hlne => exact ⟨rs, rfl, by simpa using hlne⟩
        | none, hlne => exact (hlne rfl).elim
      · rintro ⟨f', hf', rs, hrs, hrsne⟩
        have hJ : (List.map (fun f => f.2.getD []) (f :: rest)).flatten ≠ [] := by
          intro hJ
          have hmem : rs ∈ (f :: rest).map (fun f => f.2.getD []) :=
            List.mem_map.mpr ⟨f', hf', by rw [hrs]; rfl⟩
          exact hrsne (List.flatten_eq_nil_iff.mp hJ rs hmem)
        have hns : ingestAll [] ((List.map (fun f => f.2.getD []) (f :: rest)).flatten) ≠ [] :=
          fun hnil => hJ ((ingestAll_nil_iff _).mp hnil)
        simpa using hns

/-- Witness for C8 on one unreadable and one readable source. -/
theorem C8_cli_surface_witness :
    demoFiles ≠ []
    ∧ (main_model demoFiles).exitCode = 0
    ∧ (main_model demoFiles).diagnostics
        = (demoFiles.filter fun f => f.2.isNone).map Prod.fst
    ∧ ((main_model demoFiles).reportPrinted = true ↔
        ∃ f ∈ demoFiles, ∃ rs, f.2 = some rs ∧ rs ≠ []) :=
  ⟨by decide, ((C8_cli_surface demoFiles).2 (by decide)).1,
    ((C8_cli_surface demoFiles).2 (by decide)).2.2.1,
    ((C8_cli_surface demoFiles).2 (by decide)).2.2.2.2⟩

/-- **C9**: the code does NOT fail gracefully on malformed lines.  On a line
with fewer than nine fields the `strtok` token stream runs dry (here: two
tokens) and `analyze_file` passes the resulting `NULL` to
`strcpy`/`atoll`/`atof` — undefined behavior, modelled by `parseLineC`
returning `none`, not a skip-and-continue.  On a nine-field line with
non-numeric text where a number is expected, `atof` quietly converts to 0
and the line IS ingested with a zero field rather than skipped. -/
theorem C9_malformed_line_ub :
    (strtokAll malformedLine).length = 2
    ∧ parseLineC malformedLine = none
    ∧ parseLineC badNumericLine =
        some { code := "XX", timestamp_ms := atoll "1420000000000",
               humidity := atof "abc", snow := atoi "0",
               cloud_cover := atof "40.0", lightning := atoi "0",
               temp_kelvin := atof "283.15" }
    ∧ atof "abc" = 0 :=
  ⟨by decide, rfl, rfl, by with_unfolding_all rfl⟩

/-- **C10**: when all `NUM_STATES` slots are occupied and the record's code
matches none of them, the slot loop terminates without creating or updating
anything: the store (hence every accumulator and the report) is left exactly
unchanged, and the model emits nothing for the dropped record. -/
theorem C10_full_store_drop (s : List climate_info) (r : Record)
    (hfull : s.length = NUM_STATES) (h : ∀ ci ∈ s, ci.code ≠ r.code) :
    ingest NUM_STATES s r = s := by
  refine ingest_eq_of_not_mem_of_le NUM_STATES s r ?_ (by omega)
  intro hm
  rcases List.mem_map.mp hm with ⟨ci, hci, hc⟩
  exact h ci hci hc

/-- Witness for C10 on the full fifty-code store. -/
theorem C10_full_store_drop_witness :
    (ingestAll [] rs50).length = NUM_STATES
    ∧ (∀ ci ∈ ingestAll [] rs50, ci.code ≠ recZZ.code)
    ∧ ingest NUM_STATES (ingestAll [] rs50) recZZ = ingestAll [] rs50 :=
  ⟨by decide, by decide,
    C10_full_store_drop (ingestAll [] rs50) recZZ (by decide) (by decide)⟩
